import Mathlib

/-!
# Verification of the triangle_matrix indexing library

Shallow embedding of the `triangle_matrix` Rust crate: coordinate-to-offset
arithmetic for packed triangular matrices in four shapes (simple/symmetric ×
upper/lower).  Machine `usize` arithmetic is modelled on `Nat`; a `usize`
subtraction that would underflow (a panic in the source) is modelled by an
`Option` guard where the source can reach it, and the source's `assert!` /
`debug_assert!` failures are modelled as `none`.
-/

/-- `tri_num` from `src/ops.rs`: the `n`-th triangular number `n*(n+1)/2`. -/
def tri_num (n : Nat) : Nat :=
  (n * (n + 1)) / 2

namespace BaseLower

/-- `BaseLowerIndex::get_element_index` from `src/lower/base.rs`:
`tri_num(i) + j` (the `n` parameter of the trait method is unused). -/
def get_element_index (i j : Nat) : Nat :=
  tri_num i + j

/-- `BaseLowerIndex::get_row_start_index` from `src/lower/base.rs`. -/
def get_row_start_index (i : Nat) : Nat :=
  tri_num i

/-- `BaseLowerIndex::get_col_start_index` from `src/lower/base.rs`. -/
def get_col_start_index (j : Nat) : Nat :=
  tri_num j + j

/-- `BaseLowerIndex::get_row_indices` from `src/lower/base.rs`: the Rust
range `row_start(i)..row_start(i+1)`. -/
def get_row_indices (i : Nat) : List Nat :=
  List.range' (get_row_start_index i)
    (get_row_start_index (i + 1) - get_row_start_index i)

/-- `BaseLowerIndex::get_col_indices` from `src/lower/base.rs`:
`(0..n-j).map(|r| row_start(r + j) + j)`. -/
def get_col_indices (j n : Nat) : List Nat :=
  (List.range (n - j)).map fun row_index => get_row_start_index (row_index + j) + j

/-- Modelled from the spec: `base::iter_triangle_indices` is called by
`SimpleLowerTri::iter_triangle_indices` (`src/lower/simple.rs`) but its
definition is absent from the sources; per the spec it "produces all valid
`(i, j)` pairs in row-major order" of the diagonal-inclusive lower triangle
of side `m`, i.e. `j ≤ i < m`. -/
def iter_triangle_indices (m : Nat) : List (Nat × Nat) :=
  (List.range m).flatMap fun i => (List.range (i + 1)).map fun j => (i, j)

end BaseLower

namespace BaseUpper

/-- `BaseUpperIndex::get_element_index` from `src/upper/base.rs`:
`tri_num(n) - tri_num(n - i) + j`. -/
def get_element_index (i j n : Nat) : Nat :=
  tri_num n - tri_num (n - i) + j

/-- `BaseUpperIndex::get_row_start_index` from `src/upper/base.rs`. -/
def get_row_start_index (i n : Nat) : Nat :=
  tri_num n - tri_num (n - i)

/-- `BaseUpperIndex::get_col_start_index` from `src/upper/base.rs`. -/
def get_col_start_index (j : Nat) : Nat :=
  j

/-- `BaseUpperIndex::get_row_indices` from `src/upper/base.rs`: the Rust
range `row_start(i, n)..row_start(i+1, n)`.  Faithful for `i + 1 ≤ n`; for
`i + 1 > n` the source's `row_start(i + 1, n)` underflows in `n - (i + 1)`
(a debug panic), so callers that can reach that case guard it with an
`Option` (see `SymmetricUpperTri.get_row_indices?`). -/
def get_row_indices (i n : Nat) : List Nat :=
  List.range' (get_row_start_index i n)
    (get_row_start_index (i + 1) n - get_row_start_index i n)

/-- `BaseUpperIndex::get_col_indices` from `src/upper/base.rs`:
`(0..=j).map(|r| row_start(r, n) + j - r)` (left-associated `usize`
arithmetic; `r ≤ j` so the subtraction never underflows). -/
def get_col_indices (j n : Nat) : List Nat :=
  (List.range (j + 1)).map fun row_index => get_row_start_index row_index n + j - row_index

/-- Modelled from the spec: `base::iter_triangle_indices` is called by
`SimpleUpperTri::iter_triangle_indices` (`src/upper/simple.rs`) but its
definition is absent from the sources; per the spec it produces all valid
`(i, j)` pairs of the diagonal-inclusive upper triangle of side `m`
(`i ≤ j < m`) in row-major order. -/
def iter_triangle_indices (m : Nat) : List (Nat × Nat) :=
  (List.range m).flatMap fun i => (List.range' i (m - i)).map fun j => (i, j)

end BaseUpper

namespace SimpleLowerTri

/-- The index computation of `SimpleLowerTri::get_element`
(`src/lower/simple.rs`): `debug_assert!(i <= n-1)`, `debug_assert!(j <= n-1)`,
`assert!(i != 0)`, `assert!(j < i)`, then `base::get_element_index(i-1, j)`.
Failed assertions (panics) are modelled as `none`. -/
def get_element_index? (n i j : Nat) : Option Nat :=
  if i ≤ n - 1 ∧ j ≤ n - 1 then
    if i ≠ 0 ∧ j < i then some (BaseLower.get_element_index (i - 1) j) else none
  else none

/-- `SimpleLowerTri::get_element` over a packed sequence `v`:
the computed offset read from `v` (out-of-range reads panic: `none`). -/
def get_element? {α : Type} (n : Nat) (v : List α) (i j : Nat) : Option α :=
  (get_element_index? n i j).bind v.get?

/-- `SimpleLowerTri::get_row_indices` (`src/lower/simple.rs`):
`debug_assert!(i <= n-1)`, `assert!(i != 0)`, then `base::get_row_indices(i-1)`. -/
def get_row_indices? (n i : Nat) : Option (List Nat) :=
  if i ≤ n - 1 then
    if i ≠ 0 then some (BaseLower.get_row_indices (i - 1)) else none
  else none

/-- `SimpleLowerTri::get_col_start_index` (`src/lower/simple.rs`):
only `debug_assert!(j <= n-1)`, then `base::get_col_start_index(j)`. -/
def get_col_start_index? (n j : Nat) : Option Nat :=
  if j ≤ n - 1 then some (BaseLower.get_col_start_index j) else none

/-- The enumeration produced by `SimpleLowerTri::iter_triangle_indices`
(`src/lower/simple.rs`) for `n ≥ 1`:
`base::iter_triangle_indices(n - 1).map(|(i, j)| (i + 1, j))`.  The method
itself is `iter_triangle_indices?` below, which is `none` at `n = 0` where
the source's `self.n() - 1` underflows (a debug panic). -/
def iter_triangle_indices (n : Nat) : List (Nat × Nat) :=
  (BaseLower.iter_triangle_indices (n - 1)).map fun p => (p.1 + 1, p.2)

/-- `SimpleLowerTri::iter_triangle_indices` as called on a shape of axis
length `n`: the `usize` subtraction `self.n() - 1` underflows at `n = 0`
(debug panic, modelled as `none`); otherwise the enumeration above. -/
def iter_triangle_indices? (n : Nat) : Option (List (Nat × Nat)) :=
  if n = 0 then none else some (iter_triangle_indices n)

end SimpleLowerTri

namespace SimpleUpperTri

/-- The index computation of `SimpleUpperTri::get_element`
(`src/upper/simple.rs`): `debug_assert!(i <= n-1)`, `debug_assert!(j <= n-1)`,
`assert!(j != 0)`, `assert!(i < j)`, then
`base::get_element_index(i, j - (i + 1), n - 1)` (with `i < j` the
subtraction `j - (i+1)` cannot underflow). -/
def get_element_index? (n i j : Nat) : Option Nat :=
  if i ≤ n - 1 ∧ j ≤ n - 1 then
    if j ≠ 0 ∧ i < j then
      some (BaseUpper.get_element_index i (j - (i + 1)) (n - 1))
    else none
  else none

/-- `SimpleUpperTri::get_element` over a packed sequence `v`. -/
def get_element? {α : Type} (n : Nat) (v : List α) (i j : Nat) : Option α :=
  (get_element_index? n i j).bind v.get?

/-- The enumeration produced by `SimpleUpperTri::iter_triangle_indices`
(`src/upper/simple.rs`) for `n ≥ 1`:
`base::iter_triangle_indices(n - 1).map(|(i, j)| (i, j + 1))`.  The method
itself is `iter_triangle_indices?` below, which is `none` at `n = 0` where
the source's `self.n() - 1` underflows (a debug panic). -/
def iter_triangle_indices (n : Nat) : List (Nat × Nat) :=
  (BaseUpper.iter_triangle_indices (n - 1)).map fun p => (p.1, p.2 + 1)

/-- `SimpleUpperTri::iter_triangle_indices` as called on a shape of axis
length `n`: the `usize` subtraction `self.n() - 1` underflows at `n = 0`
(debug panic, modelled as `none`); otherwise the enumeration above. -/
def iter_triangle_indices? (n : Nat) : Option (List (Nat × Nat)) :=
  if n = 0 then none else some (iter_triangle_indices n)

end SimpleUpperTri

namespace SymmetricUpperTri

/-- The index computation of `SymmetricUpperTri::get_element`
(`src/upper/symmetric.rs`): `if i < j` use
`base::get_element_index(i, j - (i + 1), n - 1)`, else
`base::get_element_index(j, i - (j + 1), n - 1)`.  In the `else` branch the
`usize` subtraction `i - (j + 1)` underflows exactly when `i = j`, which
halts (debug overflow panic); that fault is modelled as `none`. -/
def get_element_index? (n i j : Nat) : Option Nat :=
  if i < j then some (BaseUpper.get_element_index i (j - (i + 1)) (n - 1))
  else if j + 1 ≤ i then some (BaseUpper.get_element_index j (i - (j + 1)) (n - 1))
  else none

/-- `SymmetricUpperTri::get_element` over a packed sequence `v`:
the `debug_assert!(i <= n-1)` / `debug_assert!(j <= n-1)` guards, the index
computation, then the read of `v`. -/
def get_element? {α : Type} (n : Nat) (v : List α) (i j : Nat) : Option α :=
  if i ≤ n - 1 ∧ j ≤ n - 1 then (get_element_index? n i j).bind v.get? else none

/-- `SymmetricUpperTri::get_row_indices` (`src/upper/symmetric.rs`):
row 0 uses the base row scan only, row `n-1` the base column scan only,
and any other row chains `base::get_col_indices(i - 1, n - 1)` with
`base::get_row_indices(i, n - 1)`.  `none` models the debug faults: the
`usize` underflow of `self.n() - 1` at `n = 0`, a failed
`debug_assert!(i <= n - 1)`, and — in the `i = 0` branch — the underflow of
`(n - 1) - (i + 1)` inside `base::get_row_start_index(i + 1, n - 1)` when
`i + 1 > n - 1`, i.e. at `n = 1`.  The other branches only reach base
subtractions that cannot underflow for `i ≤ n - 1`. -/
def get_row_indices? (n i : Nat) : Option (List Nat) :=
  if n = 0 then none
  else if i ≤ n - 1 then
    if i = 0 then
      if i + 1 ≤ n - 1 then some (BaseUpper.get_row_indices i (n - 1)) else none
    else if i = n - 1 then some (BaseUpper.get_col_indices (i - 1) (n - 1))
    else some (BaseUpper.get_col_indices (i - 1) (n - 1) ++ BaseUpper.get_row_indices i (n - 1))
  else none

/-- `SymmetricUpperTri::get_col_indices` (`src/upper/symmetric.rs`):
delegates to `get_row_indices`. -/
def get_col_indices? (n j : Nat) : Option (List Nat) :=
  get_row_indices? n j

end SymmetricUpperTri

namespace SymmetricLowerTri

/-- Modelled from the spec: `src/lower/symmetric.rs` (declared in
`src/lower/mod.rs`) is absent from the sources.  Per spec §4.6 and the
`SymmetricLowerTri` doc example, `get_row_indices(i)` combines the native
lower row scan for the elements where `i` is the row with the lower column
scan for the mirrored elements where `i` is the column, ordered by the other
coordinate ascending, mirroring the branch structure of
`SymmetricUpperTri::get_row_indices`. -/
def get_row_indices (n i : Nat) : List Nat :=
  if i = 0 then BaseLower.get_col_indices 0 (n - 1)
  else if i = n - 1 then BaseLower.get_row_indices (i - 1)
  else BaseLower.get_row_indices (i - 1) ++ BaseLower.get_col_indices i (n - 1)

/-- Modelled from the spec: `get_col_indices` of the symmetric lower shape is
identical to `get_row_indices` by symmetry (spec §4.6). -/
def get_col_indices (n j : Nat) : List Nat :=
  get_row_indices n j

end SymmetricLowerTri

/-! ## Triangular-number lemmas -/

theorem tri_num_succ (n : Nat) : tri_num (n + 1) = tri_num n + (n + 1) := by
  show ((n + 1) * (n + 2)) / 2 = n * (n + 1) / 2 + (n + 1)
  have h : (n + 1) * (n + 2) = n * (n + 1) + (n + 1) * 2 := by ring
  rw [h, Nat.add_mul_div_right _ _ (by norm_num : (0:Nat) < 2)]

theorem tri_num_mono {a b : Nat} (h : a ≤ b) : tri_num a ≤ tri_num b := by
  exact Nat.div_le_div_right (Nat.mul_le_mul h (by omega))

theorem tri_num_zero : tri_num 0 = 0 := rfl

/-- Row `i` ends strictly before row `i+1` begins once `j ≤ i`. -/
theorem lower_index_lt_next (i j : Nat) (h : j ≤ i) :
    tri_num i + j < tri_num (i + 1) := by
  rw [tri_num_succ]; omega

/-- Injectivity of the diagonal-inclusive lower mapping. -/
theorem lower_index_inj {i j i' j' : Nat} (hj : j ≤ i) (hj' : j' ≤ i')
    (h : tri_num i + j = tri_num i' + j') : i = i' ∧ j = j' := by
  have hcase : i = i' := by
    rcases Nat.lt_trichotomy i i' with hlt | heq | hgt
    · exfalso
      have h1 : tri_num i + j < tri_num (i + 1) := lower_index_lt_next i j hj
      have h2 : tri_num (i + 1) ≤ tri_num i' := tri_num_mono hlt
      omega
    · exact heq
    · exfalso
      have h1 : tri_num i' + j' < tri_num (i' + 1) := lower_index_lt_next i' j' hj'
      have h2 : tri_num (i' + 1) ≤ tri_num i := tri_num_mono hgt
      omega
  subst hcase
  exact ⟨rfl, by omega⟩

/-- Surjectivity of the diagonal-inclusive lower mapping onto
`[0, tri_num n)`. -/
theorem lower_index_surj (n : Nat) :
    ∀ k, k < tri_num n → ∃ i j, j ≤ i ∧ i < n ∧ tri_num i + j = k := by
  induction n with
  | zero => intro k hk; simp [tri_num] at hk
  | succ m ih =>
    intro k hk
    by_cases h : k < tri_num m
    · obtain ⟨i, j, hj, hi, he⟩ := ih k h
      exact ⟨i, j, hj, Nat.lt_succ_of_lt hi, he⟩
    · refine ⟨m, k - tri_num m, ?_, Nat.lt_succ_self m, ?_⟩
      · rw [tri_num_succ] at hk; omega
      · omega

/-- C1: for the diagonal-inclusive lower layout with axis length `n` and any
valid pair `j ≤ i < n`, `get_element_index i j` is `tri_num i + j`, lies in
`[0, tri_num n)`, and the mapping is injective on the valid domain. -/
theorem claim_C1 (n i j : Nat) (hj : j ≤ i) (hi : i < n) :
    BaseLower.get_element_index i j = tri_num i + j ∧
    BaseLower.get_element_index i j < tri_num n ∧
    ∀ i' j', j' ≤ i' → i' < n →
      BaseLower.get_element_index i' j' = BaseLower.get_element_index i j →
      i' = i ∧ j' = j := by
  refine ⟨rfl, ?_, ?_⟩
  · have h1 : tri_num i + j < tri_num (i + 1) := lower_index_lt_next i j hj
    have h2 : tri_num (i + 1) ≤ tri_num n := tri_num_mono hi
    show tri_num i + j < tri_num n
    omega
  · intro i' j' hj' _ he
    exact lower_index_inj hj' hj he

/-- Concrete instantiation of `claim_C1` at `n = 4`, `(i, j) = (2, 1)`. -/
theorem claim_C1_witness :
    BaseLower.get_element_index 2 1 = tri_num 2 + 1 ∧
    BaseLower.get_element_index 2 1 < tri_num 4 ∧
    ∀ i' j', j' ≤ i' → i' < 4 →
      BaseLower.get_element_index i' j' = BaseLower.get_element_index 2 1 →
      i' = 2 ∧ j' = 1 :=
  claim_C1 4 2 1 (by decide) (by decide)

/-- Each lower row scan is the contiguous block `[tri_num i, tri_num (i+1))`
of length `i + 1`. -/
theorem lower_row_indices_eq (i : Nat) :
    BaseLower.get_row_indices i = List.range' (tri_num i) (i + 1) := by
  unfold BaseLower.get_row_indices BaseLower.get_row_start_index
  rw [tri_num_succ]
  congr 1
  omega

/-- Concatenating the lower row scans for rows `0..n` yields exactly
`[0, tri_num n)` in order. -/
theorem lower_rows_concat (n : Nat) :
    (List.range n).flatMap BaseLower.get_row_indices = List.range (tri_num n) := by
  induction n with
  | zero => simp [tri_num]
  | succ m ih =>
    rw [List.range_succ, List.flatMap_append, ih]
    simp only [List.flatMap_cons, List.flatMap_nil, List.append_nil]
    rw [lower_row_indices_eq, List.range_eq_range', List.range_eq_range']
    have h := List.range'_append 0 (tri_num m) (m + 1) 1
    simp only [Nat.one_mul, Nat.zero_add] at h
    rw [h, tri_num_succ, Nat.add_comm (m + 1) (tri_num m)]

/-- C2: concatenating `get_row_indices i` for `i = 0, …, n-1` yields every
offset in `[0, tri_num n)` exactly once in strictly increasing order, and
every such offset is `get_element_index i j` of exactly one valid pair. -/
theorem claim_C2 (n : Nat) :
    (List.range n).flatMap BaseLower.get_row_indices = List.range (tri_num n) ∧
    ∀ k, k < tri_num n → ∃! p : Nat × Nat,
      p.2 ≤ p.1 ∧ p.1 < n ∧ BaseLower.get_element_index p.1 p.2 = k := by
  refine ⟨lower_rows_concat n, ?_⟩
  intro k hk
  obtain ⟨i, j, hj, hi, he⟩ := lower_index_surj n k hk
  refine ⟨(i, j), ⟨hj, hi, he⟩, ?_⟩
  rintro ⟨i', j'⟩ ⟨hj', _, he'⟩
  have h := lower_index_inj hj' hj (he'.trans he.symm)
  simpa [Prod.ext_iff] using h

/-- Concrete instantiation of `claim_C2` at `n = 4`, offset `k = 4`. -/
theorem claim_C2_witness :
    ((List.range 4).flatMap BaseLower.get_row_indices = List.range (tri_num 4)) ∧
    (4 < tri_num 4 ∧ ∃! p : Nat × Nat,
      p.2 ≤ p.1 ∧ p.1 < 4 ∧ BaseLower.get_element_index p.1 p.2 = 4) :=
  ⟨(claim_C2 4).1, by decide, (claim_C2 4).2 4 (by decide)⟩

/-- C3: on the symmetric upper shape, for `i ≠ j` with `i, j < n`, the
offsets of `(i, j)` and `(j, i)` coincide, both equal the simple-upper index
of `(min i j, max i j)`, and `get_element` reads the same storage slot. -/
theorem claim_C3 (α : Type) (n i j : Nat) (hne : i ≠ j) (hi : i < n) (hj : j < n) :
    SymmetricUpperTri.get_element_index? n i j = SymmetricUpperTri.get_element_index? n j i ∧
    SymmetricUpperTri.get_element_index? n i j =
      SimpleUpperTri.get_element_index? n (min i j) (max i j) ∧
    ∀ v : List α, SymmetricUpperTri.get_element? n v i j =
      SymmetricUpperTri.get_element? n v j i := by
  have hn1i : i ≤ n - 1 := by omega
  have hn1j : j ≤ n - 1 := by omega
  rcases Nat.lt_or_ge i j with hlt | hge
  · have hgt : ¬ j < i := by omega
    have h2 : i + 1 ≤ j := hlt
    have hmin : min i j = i := by omega
    have hmax : max i j = j := by omega
    have hj0 : j ≠ 0 := by omega
    refine ⟨?_, ?_, fun v => ?_⟩ <;>
      simp [SymmetricUpperTri.get_element_index?, SimpleUpperTri.get_element_index?,
        SymmetricUpperTri.get_element?, hlt, hgt, h2, hmin, hmax, hn1i, hn1j, hj0]
  · have hlt : j < i := by omega
    have hgt : ¬ i < j := by omega
    have h2 : j + 1 ≤ i := hlt
    have hmin : min i j = j := by omega
    have hmax : max i j = i := by omega
    have hi0 : i ≠ 0 := by omega
    refine ⟨?_, ?_, fun v => ?_⟩ <;>
      simp [SymmetricUpperTri.get_element_index?, SimpleUpperTri.get_element_index?,
        SymmetricUpperTri.get_element?, hlt, hgt, h2, hmin, hmax, hn1i, hn1j, hi0]

/-- Concrete instantiation of `claim_C3` at `n = 5`, `(i, j) = (1, 3)` over
the packed sequence `[0, …, 9]`. -/
theorem claim_C3_witness :
    SymmetricUpperTri.get_element_index? 5 1 3 = SymmetricUpperTri.get_element_index? 5 3 1 ∧
    SymmetricUpperTri.get_element_index? 5 1 3 =
      SimpleUpperTri.get_element_index? 5 (min 1 3) (max 1 3) ∧
    SymmetricUpperTri.get_element? 5 [0, 1, 2, 3, 4, 5, 6, 7, 8, 9] 1 3 =
      SymmetricUpperTri.get_element? 5 [0, 1, 2, 3, 4, 5, 6, 7, 8, 9] 3 1 := by
  obtain ⟨h1, h2, h3⟩ := claim_C3 Nat 5 1 3 (by decide) (by decide) (by decide)
  exact ⟨h1, h2, h3 [0, 1, 2, 3, 4, 5, 6, 7, 8, 9]⟩

/-- C4: on every no-diagonal shape (simple lower, simple upper, symmetric
upper), requesting the diagonal element `(i, i)` fails.  The simple shapes
fail their `assert!`; the symmetric upper shape halts on the `usize`
underflow of `i - (j + 1)`. -/
theorem claim_C4 (α : Type) (n i : Nat) (hi : i < n) (v : List α) :
    SimpleLowerTri.get_element? n v i i = none ∧
    SimpleUpperTri.get_element? n v i i = none ∧
    SymmetricUpperTri.get_element? n v i i = none := by
  have h1 : ¬ i < i := by omega
  have h2 : ¬ i + 1 ≤ i := by omega
  refine ⟨?_, ?_, ?_⟩ <;>
    simp [SimpleLowerTri.get_element?, SimpleLowerTri.get_element_index?,
      SimpleUpperTri.get_element?, SimpleUpperTri.get_element_index?,
      SymmetricUpperTri.get_element?, SymmetricUpperTri.get_element_index?,
      h1, h2, ite_self]

/-- Concrete instantiation of `claim_C4` at `n = 3`, `i = 1`, `v = [0,1,2]`. -/
theorem claim_C4_witness :
    SimpleLowerTri.get_element? 3 [0, 1, 2] 1 1 = none ∧
    SimpleUpperTri.get_element? 3 [0, 1, 2] 1 1 = none ∧
    SymmetricUpperTri.get_element? 3 [0, 1, 2] 1 1 = none :=
  claim_C4 Nat 3 1 (by decide) [0, 1, 2]

/-- C5: concrete simple-upper reads for `n = 5` over the packed sequence
`[0, …, 9]`: `get_element(0,3) = 2`, `get_element(2,4) = 8`, and
`get_element(0,1)` is the first packed element `0`. -/
theorem claim_C5 :
    SimpleUpperTri.get_element? 5 [0, 1, 2, 3, 4, 5, 6, 7, 8, 9] 0 3 = some 2 ∧
    SimpleUpperTri.get_element? 5 [0, 1, 2, 3, 4, 5, 6, 7, 8, 9] 2 4 = some 8 ∧
    SimpleUpperTri.get_element? 5 [0, 1, 2, 3, 4, 5, 6, 7, 8, 9] 0 1 = some 0 := by
  decide

/-- Upper row `i` of the base layout of side `m` holds `m - i` offsets. -/
theorem upper_row_len (i m : Nat) (h : i ≤ m) :
    BaseUpper.get_row_start_index (i + 1) m - BaseUpper.get_row_start_index i m = m - i := by
  unfold BaseUpper.get_row_start_index
  rcases Nat.eq_or_lt_of_le h with heq | hlt
  · subst heq
    have h1 : i - (i + 1) = 0 := by omega
    have h2 : i - i = 0 := by omega
    rw [h1, h2]
    omega
  · have ha : m - i = (m - (i + 1)) + 1 := by omega
    have key : tri_num (m - i) = tri_num (m - (i + 1)) + (m - i) := by
      rw [ha, tri_num_succ]
    have hm1 : tri_num (m - i) ≤ tri_num m := tri_num_mono (by omega)
    have hm2 : tri_num (m - (i + 1)) ≤ tri_num (m - i) := tri_num_mono (by omega)
    omega

/-- The base upper row scan is a contiguous block of length `m - i`. -/
theorem upper_row_indices_eq (i m : Nat) (h : i ≤ m) :
    BaseUpper.get_row_indices i m =
      List.range' (BaseUpper.get_row_start_index i m) (m - i) := by
  unfold BaseUpper.get_row_indices
  rw [upper_row_len i m h]

/-- The spec-side scan of C6 for the symmetric upper shape: offsets of the
pairs `(r, i)` for `r < i` (column scan) followed by offsets of the pairs
`(i, j)` for `j ∈ [i+1, n)` (row scan), each through the simple-upper
element-index formula. -/
def symUpperRowSpec (n i : Nat) : List Nat :=
  ((List.range i).map fun r => BaseUpper.get_element_index r (i - (r + 1)) (n - 1)) ++
  ((List.range' (i + 1) (n - 1 - i)).map fun j => BaseUpper.get_element_index i (j - (i + 1)) (n - 1))

/-- The base upper column scan of column `i - 1` lists the simple-upper
offsets of the pairs `(r, i)` for `r < i`, in row order. -/
theorem sym_upper_col_part (n i : Nat) (hi : 1 ≤ i) :
    BaseUpper.get_col_indices (i - 1) (n - 1) =
      (List.range i).map fun r => BaseUpper.get_element_index r (i - (r + 1)) (n - 1) := by
  unfold BaseUpper.get_col_indices
  have h1 : i - 1 + 1 = i := by omega
  rw [h1]
  apply List.map_congr_left
  intro r hr
  rw [List.mem_range] at hr
  unfold BaseUpper.get_element_index BaseUpper.get_row_start_index
  omega

/-- The base upper row scan of row `i` lists the simple-upper offsets of the
pairs `(i, j)` for `j ∈ [i+1, n)`, in column order. -/
theorem sym_upper_row_part (n i : Nat) (hi : i ≤ n - 1) :
    BaseUpper.get_row_indices i (n - 1) =
      (List.range' (i + 1) (n - 1 - i)).map
        fun j => BaseUpper.get_element_index i (j - (i + 1)) (n - 1) := by
  rw [upper_row_indices_eq i (n - 1) hi, List.range'_eq_map_range,
    List.range'_eq_map_range, List.map_map]
  apply List.map_congr_left
  intro x _
  show BaseUpper.get_row_start_index i (n - 1) + x =
    BaseUpper.get_element_index i ((i + 1 + x) - (i + 1)) (n - 1)
  unfold BaseUpper.get_element_index BaseUpper.get_row_start_index
  omega

/-- C6 counterexample: at `n = 1` the index `i = 0 < n` is in the claim's
domain, yet the symmetric upper row scan does not yield the (empty) spec
concatenation — the source's `i = 0` branch calls
`base::get_row_indices(0, 0)`, whose `row_start(1, 0)` underflows in
`0 - 1` and halts. -/
theorem claim_C6_counterexample :
    SymmetricUpperTri.get_row_indices? 1 0 = none ∧
    SymmetricUpperTri.get_row_indices? 1 0 ≠ some (symUpperRowSpec 1 0) := by
  decide

/-- C6 (amended to `2 ≤ n`): the symmetric upper row scan succeeds and is
the column scan over rows `0..i` followed by the row scan of row `i`, giving
exactly `n - 1` offsets ordered by the other coordinate ascending, and the
column scan is the same list. -/
theorem claim_C6 (n i : Nat) (hn : 2 ≤ n) (hi : i < n) :
    SymmetricUpperTri.get_row_indices? n i = some (symUpperRowSpec n i) ∧
    (symUpperRowSpec n i).length = n - 1 ∧
    SymmetricUpperTri.get_col_indices? n i = SymmetricUpperTri.get_row_indices? n i := by
  have hn0 : ¬ n = 0 := by omega
  have hle : i ≤ n - 1 := by omega
  have hmain : SymmetricUpperTri.get_row_indices? n i = some (symUpperRowSpec n i) := by
    unfold SymmetricUpperTri.get_row_indices?
    rw [if_neg hn0, if_pos hle]
    by_cases h0 : i = 0
    · subst h0
      rw [if_pos rfl, if_pos (by omega : 0 + 1 ≤ n - 1)]
      unfold symUpperRowSpec
      rw [sym_upper_row_part n 0 (by omega)]
      simp
    · rw [if_neg h0]
      by_cases hlast : i = n - 1
      · rw [if_pos hlast]
        unfold symUpperRowSpec
        rw [sym_upper_col_part n i (by omega)]
        have hz : n - 1 - i = 0 := by omega
        rw [hz]
        simp
      · rw [if_neg hlast]
        unfold symUpperRowSpec
        rw [sym_upper_col_part n i (by omega), sym_upper_row_part n i (by omega)]
  refine ⟨hmain, ?_, rfl⟩
  unfold symUpperRowSpec
  rw [List.length_append, List.length_map, List.length_map, List.length_range,
    List.length_range']
  omega

/-- Concrete instantiation of `claim_C6` at `n = 5`, `i = 2`. -/
theorem claim_C6_witness :
    SymmetricUpperTri.get_row_indices? 5 2 = some (symUpperRowSpec 5 2) ∧
    (symUpperRowSpec 5 2).length = 5 - 1 ∧
    SymmetricUpperTri.get_col_indices? 5 2 = SymmetricUpperTri.get_row_indices? 5 2 :=
  claim_C6 5 2 (by decide) (by decide)

/-- C7: on the simple lower shape with `i, j < n`, `get_element` fails when
`i = 0` or `j ≥ i`, otherwise it reads offset `tri_num (i-1) + j` of the
packed sequence; and `get_row_indices 0` fails. -/
theorem claim_C7 (α : Type) (n i j : Nat) (hi : i < n) (hj : j < n) :
    ((i = 0 ∨ i ≤ j) → ∀ v : List α, SimpleLowerTri.get_element? n v i j = none) ∧
    (i ≠ 0 → j < i → ∀ v : List α,
      SimpleLowerTri.get_element? n v i j = v.get? (tri_num (i - 1) + j)) ∧
    SimpleLowerTri.get_row_indices? n 0 = none := by
  have h1 : i ≤ n - 1 := by omega
  have h2 : j ≤ n - 1 := by omega
  refine ⟨?_, ?_, ?_⟩
  · intro h v
    have hc : ¬ (i ≠ 0 ∧ j < i) := by rcases h with h | h <;> omega
    simp [SimpleLowerTri.get_element?, SimpleLowerTri.get_element_index?, h1, h2, hc]
  · intro h0 hji v
    simp [SimpleLowerTri.get_element?, SimpleLowerTri.get_element_index?, h1, h2, h0, hji,
      BaseLower.get_element_index]
  · simp [SimpleLowerTri.get_row_indices?]

/-- Concrete instantiation of `claim_C7` at `n = 3` over `[10, 11, 12]`:
failure at `(0, 1)`, success at `(2, 1)`, and `get_row_indices 0` fails. -/
theorem claim_C7_witness :
    SimpleLowerTri.get_element? 3 [10, 11, 12] 0 1 = none ∧
    SimpleLowerTri.get_element? 3 [10, 11, 12] 2 1 =
      List.get? [10, 11, 12] (tri_num (2 - 1) + 1) ∧
    SimpleLowerTri.get_row_indices? 3 0 = none := by
  obtain ⟨ha, _, hc⟩ := claim_C7 Nat 3 0 1 (by decide) (by decide)
  obtain ⟨_, hb, _⟩ := claim_C7 Nat 3 2 1 (by decide) (by decide)
  exact ⟨ha (Or.inl rfl) [10, 11, 12], hb (by decide) (by decide) [10, 11, 12], hc⟩

/-- C9: on the symmetric lower shape with `n = 5`, the row scan of index 2 is
`[1, 2, 5, 8]` and the column scan is the same sequence. -/
theorem claim_C9 :
    SymmetricLowerTri.get_row_indices 5 2 = [1, 2, 5, 8] ∧
    SymmetricLowerTri.get_col_indices 5 2 = [1, 2, 5, 8] := by
  decide

/-- C10: `SimpleLowerTri::get_col_start_index` performs no `assert!` and
returns `tri_num j + j` for every `j < n`; at `j = n - 1` that offset is at
or beyond the packed size `tri_num (n - 1)`. -/
theorem claim_C10 (n j : Nat) (hj : j < n) :
    SimpleLowerTri.get_col_start_index? n j = some (tri_num j + j) ∧
    (j = n - 1 → tri_num (n - 1) ≤ tri_num j + j) := by
  have h1 : j ≤ n - 1 := by omega
  refine ⟨?_, ?_⟩
  · simp [SimpleLowerTri.get_col_start_index?, BaseLower.get_col_start_index, h1]
  · intro h
    subst h
    omega

/-- Concrete instantiation of `claim_C10` at `n = 4`, `j = 3`. -/
theorem claim_C10_witness :
    (SimpleLowerTri.get_col_start_index? 4 3 = some (tri_num 3 + 3) ∧
      (3 = 4 - 1 → tri_num (4 - 1) ≤ tri_num 3 + 3)) :=
  claim_C10 4 3 (by decide)

/-- The simple lower triangle-index iterator in canonical row-major form:
rows `1..n-1`, columns `0..i-1`. -/
theorem lower_iter_canonical (n : Nat) :
    SimpleLowerTri.iter_triangle_indices n =
      (List.range' 1 (n - 1)).flatMap fun i => (List.range i).map fun j => (i, j) := by
  unfold SimpleLowerTri.iter_triangle_indices BaseLower.iter_triangle_indices
  rw [List.map_flatMap, List.range'_eq_map_range, List.flatMap_map]
  congr 1
  funext i
  rw [List.map_map]
  simp only [Nat.add_comm 1 i]
  rfl

/-- The simple upper triangle-index iterator in canonical row-major form:
rows `0..n-2`, columns `i+1..n-1`. -/
theorem upper_iter_canonical (n : Nat) :
    SimpleUpperTri.iter_triangle_indices n =
      (List.range (n - 1)).flatMap fun i =>
        (List.range' (i + 1) (n - 1 - i)).map fun j => (i, j) := by
  unfold SimpleUpperTri.iter_triangle_indices BaseUpper.iter_triangle_indices
  rw [List.map_flatMap]
  congr 1
  funext i
  rw [List.map_map, List.range'_eq_map_range, List.range'_eq_map_range,
    List.map_map, List.map_map]
  apply List.map_congr_left
  intro x _
  show (i, i + x + 1) = (i, i + 1 + x)
  exact congrArg (Prod.mk i) (by omega)

/-- Membership in the simple lower iterator is exactly validity of the pair. -/
theorem lower_iter_mem (n : Nat) (p : Nat × Nat) :
    p ∈ SimpleLowerTri.iter_triangle_indices n ↔
      1 ≤ p.1 ∧ p.1 ≤ n - 1 ∧ p.2 < p.1 := by
  obtain ⟨a, b⟩ := p
  rw [lower_iter_canonical]
  simp only [List.mem_flatMap, List.mem_map, List.mem_range'_1, List.mem_range,
    Prod.mk.injEq]
  constructor
  · rintro ⟨i, ⟨hi1, hi2⟩, j, hj, rfl, rfl⟩
    omega
  · rintro ⟨h1, h2, h3⟩
    exact ⟨a, ⟨h1, by omega⟩, b, h3, rfl, rfl⟩

/-- Membership in the simple upper iterator is exactly validity of the pair. -/
theorem upper_iter_mem (n : Nat) (p : Nat × Nat) :
    p ∈ SimpleUpperTri.iter_triangle_indices n ↔ p.1 < p.2 ∧ p.2 ≤ n - 1 := by
  obtain ⟨a, b⟩ := p
  rw [upper_iter_canonical]
  simp only [List.mem_flatMap, List.mem_map, List.mem_range, List.mem_range'_1,
    Prod.mk.injEq]
  constructor
  · rintro ⟨i, hi, j, ⟨hj1, hj2⟩, rfl, rfl⟩
    omega
  · rintro ⟨h1, h2⟩
    exact ⟨a, by omega, b, ⟨by omega, by omega⟩, rfl, rfl⟩

/-- The simple lower iterator lists no pair twice. -/
theorem lower_iter_nodup (n : Nat) :
    (SimpleLowerTri.iter_triangle_indices n).Nodup := by
  rw [lower_iter_canonical, List.nodup_flatMap]
  constructor
  · intro i _
    exact List.Nodup.map (fun a b h => by simpa using congrArg Prod.snd h)
      (List.nodup_range i)
  · refine List.Pairwise.imp ?_ (List.pairwise_lt_range' 1 (n - 1) 1)
    intro i₁ i₂ hlt x hx₁ hx₂
    simp only [List.mem_map, List.mem_range] at hx₁ hx₂
    obtain ⟨j₁, _, rfl⟩ := hx₁
    obtain ⟨j₂, _, h⟩ := hx₂
    have := congrArg Prod.fst h
    simp only at this
    omega

/-- The simple upper iterator lists no pair twice. -/
theorem upper_iter_nodup (n : Nat) :
    (SimpleUpperTri.iter_triangle_indices n).Nodup := by
  rw [upper_iter_canonical, List.nodup_flatMap]
  constructor
  · intro i _
    exact List.Nodup.map (fun a b h => by simpa using congrArg Prod.snd h)
      (List.nodup_range' _ _ 1)
  · refine List.Pairwise.imp ?_ (List.pairwise_lt_range (n - 1))
    intro i₁ i₂ hlt x hx₁ hx₂
    simp only [List.mem_map, List.mem_range'_1] at hx₁ hx₂
    obtain ⟨j₁, _, rfl⟩ := hx₁
    obtain ⟨j₂, _, h⟩ := hx₂
    have := congrArg Prod.fst h
    simp only at this
    omega

/-- C8 counterexample: at `n = 0` neither iterator yields the (empty)
row-major enumeration of the (empty) valid-pair set — the source's
`self.n() - 1` underflows and halts (release builds wrap to a huge
non-empty enumeration instead). -/
theorem claim_C8_counterexample :
    SimpleLowerTri.iter_triangle_indices? 0 = none ∧
    SimpleLowerTri.iter_triangle_indices? 0 ≠ some [] ∧
    SimpleUpperTri.iter_triangle_indices? 0 = none ∧
    SimpleUpperTri.iter_triangle_indices? 0 ≠ some [] := by
  decide

/-- C8 (amended to `1 ≤ n`): the diagonal-excluding iterators succeed and
enumerate every valid pair exactly once in row-major order: for the simple
lower shape the pairs `{(i, j) : 1 ≤ i ≤ n-1, j < i}` (base pairs shifted by
`(i'+1, j')`), for the simple upper shape the pairs
`{(i, j) : i < j ≤ n-1}` (base pairs shifted by `(i', j'+1)`). -/
theorem claim_C8 (n : Nat) (hn : 1 ≤ n) :
    SimpleLowerTri.iter_triangle_indices? n =
      some (SimpleLowerTri.iter_triangle_indices n) ∧
    SimpleLowerTri.iter_triangle_indices n =
      ((List.range' 1 (n - 1)).flatMap fun i => (List.range i).map fun j => (i, j)) ∧
    (∀ p : Nat × Nat, p ∈ SimpleLowerTri.iter_triangle_indices n ↔
      1 ≤ p.1 ∧ p.1 ≤ n - 1 ∧ p.2 < p.1) ∧
    (SimpleLowerTri.iter_triangle_indices n).Nodup ∧
    SimpleUpperTri.iter_triangle_indices? n =
      some (SimpleUpperTri.iter_triangle_indices n) ∧
    SimpleUpperTri.iter_triangle_indices n =
      ((List.range (n - 1)).flatMap fun i =>
        (List.range' (i + 1) (n - 1 - i)).map fun j => (i, j)) ∧
    (∀ p : Nat × Nat, p ∈ SimpleUpperTri.iter_triangle_indices n ↔
      p.1 < p.2 ∧ p.2 ≤ n - 1) ∧
    (SimpleUpperTri.iter_triangle_indices n).Nodup := by
  have hn0 : ¬ n = 0 := by omega
  exact ⟨by simp [SimpleLowerTri.iter_triangle_indices?, hn0],
    lower_iter_canonical n, lower_iter_mem n, lower_iter_nodup n,
    by simp [SimpleUpperTri.iter_triangle_indices?, hn0],
    upper_iter_canonical n, upper_iter_mem n, upper_iter_nodup n⟩

/-- Concrete instantiation of `claim_C8` at `n = 3`, with the membership
characterizations evaluated at the pairs `(2, 1)` and `(0, 2)`. -/
theorem claim_C8_witness :
    SimpleLowerTri.iter_triangle_indices? 3 =
      some (SimpleLowerTri.iter_triangle_indices 3) ∧
    ((2, 1) ∈ SimpleLowerTri.iter_triangle_indices 3 ↔
      1 ≤ 2 ∧ 2 ≤ 3 - 1 ∧ 1 < 2) ∧
    (SimpleLowerTri.iter_triangle_indices 3).Nodup ∧
    SimpleUpperTri.iter_triangle_indices? 3 =
      some (SimpleUpperTri.iter_triangle_indices 3) ∧
    ((0, 2) ∈ SimpleUpperTri.iter_triangle_indices 3 ↔ 0 < 2 ∧ 2 ≤ 3 - 1) ∧
    (SimpleUpperTri.iter_triangle_indices 3).Nodup := by
  obtain ⟨h1, _, h3, h4, h5, _, h7, h8⟩ := claim_C8 3 (by decide)
  exact ⟨h1, h3 (2, 1), h4, h5, h7 (0, 2), h8⟩
